import Mathlib

/-!
# Verification of the brine protocol engine

A shallow embedding, in Lean 4, of the protocol-engine core of the `brine`
repository: the packet transport framer
(`crates/brine_proto_backend/src/backend_stevenarella/codec.rs`), the
connection state machine (`react_to_packet` in the same file), the chunk
section bitmask decoder
(`crates/brine_proto_backend/src/backend_stevenarella/chunks.rs`) and the
session handshake orchestrator's packet handlers
(`crates/brine_proto_backend/src/backend_stevenarella/login.rs`).

Bytes are modelled as `Nat` (values below 256 on the wire), machine
integers as `Int`/`Nat` with explicit wrapping where the Rust code wraps,
buffers as `List Nat`, and cursor-based readers as functions consuming a
prefix of a list.  Fallible Rust functions returning `Result` become
`Except`.  Logging is unobservable and therefore dropped.

External collaborators that are not part of this repository's source
(the zlib deflate/inflate routines from `flate2`, the generated
`packet_by_id` dispatch table and per-packet serializers from
`steven_protocol`, and the `serde_json` status parse) are abstracted into a
record of functions, `Ext`, that every codec definition takes as an
argument; no theorem below depends on their behaviour beyond what the
claims require.
-/

namespace Brine

/-- Kind of a `std::io::Error`, as far as the codec distinguishes kinds:
`decode_packet`/`encode_packet` produce `UnexpectedEof` on short buffers,
`Cursor<&mut [u8]>::write_all` produces `WriteZero` when the fixed output
buffer is full, and any other kind (e.g. from the zlib inflater) is
`otherKind`. -/
inductive IoErrKind where
  | unexpectedEof
  | writeZero
  | otherKind
deriving DecidableEq

/-- `steven_protocol::protocol::Error`, restricted to the constructors the
embedded code can produce: `Error::IOError(e)` and `Error::Err(msg)`. -/
inductive CodecErr where
  | ioError (kind : IoErrKind)
  | err (msg : String)
deriving DecidableEq

/-- Modelled from the spec: `brine_net::DecodeResult` is not under `src/`;
the spec's framer contract is
`decode(buffer) -> (bytes_consumed, Packet | NeedMoreData | Error)` and the
variant names `Ok`/`UnexpectedEnd`/`Err` appear in the `src/` codec. -/
inductive DecodeResult (α ε : Type) where
  | ok (item : α)
  | unexpectedEnd
  | err (e : ε)
deriving DecidableEq

/-- Modelled from the spec: `brine_net::EncodeResult` is not under `src/`;
the spec's framer contract is
`encode(packet, output_buffer) -> bytes_written | BufferTooSmall(new_size) | Error`
and the variant names `Ok`/`Overflow`/`Err` appear in the `src/` codec. -/
inductive EncodeResult (ε : Type) where
  | ok (length : Nat)
  | overflow (newSize : Nat)
  | err (e : ε)
deriving DecidableEq

/-- `crate::codec::MinecraftProtocolState`; its four variants are visible in
the `From<State>`/`From<MinecraftProtocolState>` impls in
`backend_stevenarella/codec.rs`. -/
inductive MinecraftProtocolState where
  | handshaking
  | status
  | login
  | play
deriving DecidableEq

/-- `steven_protocol::protocol::Direction` (an opaque parameter here). -/
inductive Direction where
  | clientbound
  | serverbound
deriving DecidableEq

/-- `crate::codec::UnknownPacket`: the fallback variant preserving the
numeric id and the raw body bytes. -/
structure UnknownPacket where
  packet_id : Int
  body : List Nat
deriving DecidableEq

/-- The structured (`Known`) packet shapes this development needs.  The real
`steven_protocol::protocol::packet::Packet` enum has hundreds of generated
variants; the constructors below are exactly those matched by
`react_to_packet` (codec.rs) and `respond_to_keep_alive_packets` (login.rs),
each carrying only the fields those matches read.  Every other variant is
collapsed into `otherPacket`. -/
inductive KPacket where
  /-- `packet::Packet::Handshake`, field `next : VarInt`. -/
  | handshake (next : Int)
  /-- `packet::Packet::StatusResponse`, field `status : String`. -/
  | statusResponse (status : String)
  /-- `packet::Packet::SetCompression`, field `threshold : VarInt`. -/
  | setCompression (threshold : Int)
  /-- `packet::Packet::SetInitialCompression`, field `threshold : VarInt`. -/
  | setInitialCompression (threshold : Int)
  /-- `packet::Packet::LoginSuccess_String` (fields unread by the core). -/
  | loginSuccessString
  /-- `packet::Packet::LoginSuccess_UUID` (fields unread by the core). -/
  | loginSuccessUUID
  /-- `packet::Packet::ConfigurationClientboundKeepAlive { keepAliveId }`. -/
  | configurationClientboundKeepAlive (keepAliveId : Int)
  /-- `packet::Packet::ConfigurationServerboundKeepAlive { keepAliveId }`. -/
  | configurationServerboundKeepAlive (keepAliveId : Int)
  /-- `packet::Packet::ConfigurationClientboundPing { id }`. -/
  | configurationClientboundPing (id : Int)
  /-- `packet::Packet::ConfigurationServerboundPong { id }`. -/
  | configurationServerboundPong (id : Int)
  /-- `packet::Packet::PlayClientboundKeepAlive { keepAliveId }`. -/
  | playClientboundKeepAlive (keepAliveId : Int)
  /-- `packet::Packet::PlayServerboundKeepAlive { keepAliveId }`. -/
  | playServerboundKeepAlive (keepAliveId : Int)
  /-- Stand-in for every remaining generated variant. -/
  | otherPacket (tag : Nat)
deriving DecidableEq

/-- `backend_stevenarella::codec::Packet`:
`Known(packet::Packet) | Unknown(UnknownPacket)`. -/
inductive Packet where
  | known (p : KPacket)
  | unknown (u : UnknownPacket)
deriving DecidableEq

/-- The external collaborators of the codec, bundled: zlib from `flate2`,
the generated dispatch table and serializers from `steven_protocol`, and the
`serde_json`-based body of `get_server_protocol_version`.  None of these is
source of this repository. -/
structure Ext where
  /-- `ZlibDecoder::read_to_end` over the compressed payload. -/
  inflate : List Nat → Except IoErrKind (List Nat)
  /-- `ZlibEncoder::write_all` + `finish` (infallible for in-memory output). -/
  deflate : List Nat → List Nat
  /-- `packet::packet_by_id(protocol_version, state, direction, id, cursor)`:
  `Ok(some p)` for a recognized packet, `Ok(none)` for an unknown id. -/
  packetById : Int → MinecraftProtocolState → Direction → Int → List Nat →
      Except CodecErr (Option KPacket)
  /-- `packet.packet_id(protocol_version)` from the generated tables. -/
  packetId : KPacket → Int → Int
  /-- `packet.write(buf)`: the generated body serializer (id excluded),
  infallible for in-memory output. -/
  writeData : KPacket → List Nat
  /-- The body of `MinecraftCodec::get_server_protocol_version`: parse the
  status JSON and extract `version.protocol` (`serde_json` is external). -/
  statusProtocolVersion : String → Except String Int

/-! ## Variable-length integers

`steven_protocol::protocol::VarInt` reads and writes LEB128-style 7-bit
groups over a `u32` reinterpreted as `i32`.  `read_from` reads bytes,
or-ing `(b & 0x7F) << (size * 7)` into a `u32` accumulator; after a sixth
byte it fails with `Error::Err("VarInt too big")`; a read past the end of
the buffer fails with an `UnexpectedEof` io error.  (The sixth byte's
out-of-range shift is modelled with release-mode masking; the value is
discarded on that path either way.) -/

/-- Reinterpret a `u32` bit pattern as an `i32` value. -/
def i32ofU32 (v : Nat) : Int :=
  if v < 2 ^ 31 then (v : Int) else (v : Int) - 2 ^ 32

/-- `v as u32` for an `i32` value `v`. -/
def u32ofI32 (v : Int) : Nat :=
  (v % 2 ^ 32).toNat

/-- `v as usize` for an `i32` value `v`, on a 64-bit target. -/
def i32AsUsize (v : Int) : Nat :=
  (v % 2 ^ 64).toNat

/-- `n as i32` for a `usize` value `n`. -/
def usizeAsI32 (n : Nat) : Int :=
  i32ofU32 (n % 2 ^ 32)

/-- The loop of `VarInt::read_from`: `size` bytes consumed so far, `val` the
`u32` accumulator.  Returns the accumulator and the byte count. -/
def readVarIntAux : List Nat → Nat → Nat → Except CodecErr (Nat × Nat)
  | [], _, _ => .error (.ioError .unexpectedEof)
  | b :: rest, size, val =>
    let val := (val ||| ((b &&& 0x7F) <<< ((size * 7) % 32))) % 2 ^ 32
    let size := size + 1
    if size > 5 then .error (.err "VarInt too big")
    else if b &&& 0x80 = 0 then .ok (val, size)
    else readVarIntAux rest size val

/-- `VarInt::read_from` on a cursor: the value, the number of bytes
consumed, and the rest of the buffer. -/
def readVarInt (bytes : List Nat) : Except CodecErr (Int × Nat × List Nat) :=
  match readVarIntAux bytes 0 0 with
  | .error e => .error e
  | .ok (val, size) => .ok (i32ofU32 val, size, bytes.drop size)

/-- The loop of `VarInt::write_to` on the `u32` bit pattern: emit 7 bits
per byte, continuation bit on every byte but the last.  The first argument
is fuel for structural recursion: a `u32` needs at most five 7-bit groups,
so the fuel of 5 supplied by `writeVarInt` is never exhausted (each
recursion shifts the value right by 7 bits). -/
def varIntBytesAux : Nat → Nat → List Nat
  | 0, v => [v]
  | fuel + 1, v =>
    if v < 0x80 then [v]
    else ((v &&& 0x7F) ||| 0x80) :: varIntBytesAux fuel (v >>> 7)

/-- `VarInt(v).write_to(..)`: the bytes appended to the output. -/
def writeVarInt (v : Int) : List Nat :=
  varIntBytesAux 5 (u32ofI32 v)

/-! ## Writing into a fixed-size buffer

`encode_packet` writes through a `Cursor<&mut [u8]>`.  Its `write` fills as
many bytes as fit and `write_all` turns a zero-byte write with data left
over into a `WriteZero` io error, keeping whatever partial bytes were
already copied. -/

/-- Overwrite `buf` starting at `pos` with as much of `data` as fits,
keeping the buffer length fixed. -/
def spliceAt (buf : List Nat) (pos : Nat) (data : List Nat) : List Nat :=
  buf.take pos ++ data.take (buf.length - pos) ++ buf.drop (pos + data.length)

/-- `cursor.write_all(data)` on a cursor at `pos` over a fixed buffer:
either the updated buffer and new position, or a `WriteZero` error together
with the partially written buffer. -/
def writeAllC (buf : List Nat) (pos : Nat) (data : List Nat) :
    Except (IoErrKind × List Nat) (List Nat × Nat) :=
  if pos + data.length ≤ buf.length then .ok (spliceAt buf pos data, pos + data.length)
  else .error (.writeZero, spliceAt buf pos data)

/-! ## `MinecraftCodec::decode_packet` (codec.rs lines 63-134) -/

/-- The tail of `decode_packet`: read the leading varint packet id from the
(possibly decompressed) body bytes and hand the remainder to the dispatch
table; an unrecognized id becomes `Packet::Unknown` preserving the raw
bytes.  This also embeds `decode_packet_with_id` (codec.rs lines 138-193);
the consumed-vs-total comparison there only logs and is dropped. -/
def decodeIdAndDispatch (E : Ext) (protocolVersion : Int)
    (protocolState : MinecraftProtocolState) (direction : Direction)
    (bodyBytes : List Nat) : Except CodecErr Packet :=
  match readVarInt bodyBytes with
  | .error e => .error e
  | .ok (packetId, _, dataSlice) =>
    match E.packetById protocolVersion protocolState direction packetId dataSlice with
    | .error e => .error e
    | .ok (some p) => .ok (.known p)
    | .ok none => .ok (.unknown ⟨packetId, dataSlice⟩)

/-- The compression step of `decode_packet` (codec.rs lines 96-118): with a
threshold configured, the payload starts with a varint "uncompressed
length"; zero means the trailing bytes are the body verbatim, otherwise
they are inflated (the decompressed-length mismatch only logs). -/
def decompressBody (E : Ext) (compressionThreshold : Option Int)
    (packetBody : List Nat) : Except CodecErr (List Nat) :=
  match compressionThreshold with
  | none => .ok packetBody
  | some _ =>
    match readVarInt packetBody with
    | .error e => .error e
    | .ok (dataLengthV, _, remaining) =>
      if i32AsUsize dataLengthV = 0 then .ok remaining
      else
        match E.inflate remaining with
        | .ok data => .ok data
        | .error kind => .error (.ioError kind)

/-- `MinecraftCodec::decode_packet`: read the varint length prefix; if the
buffer holds fewer than `length_length + length` bytes fail with an
`UnexpectedEof` io error; otherwise decompress (if configured), read the
packet id, dispatch, and return the total frame size with the packet. -/
def decode_packet (E : Ext) (protocolVersion : Int)
    (protocolState : MinecraftProtocolState) (direction : Direction)
    (compressionThreshold : Option Int) (buf : List Nat) :
    Except CodecErr (Nat × Packet) :=
  match readVarInt buf with
  | .error e => .error e
  | .ok (lengthV, lengthLength, _) =>
    let length := i32AsUsize lengthV
    let totalPacketBytes := lengthLength + length
    if buf.length < totalPacketBytes then .error (.ioError .unexpectedEof)
    else
      let packetBody := (buf.drop lengthLength).take length
      match decompressBody E compressionThreshold packetBody with
      | .error e => .error e
      | .ok bodyBytes =>
        match decodeIdAndDispatch E protocolVersion protocolState direction bodyBytes with
        | .error e => .error e
        | .ok packet => .ok (totalPacketBytes, packet)

/-! ## `MinecraftCodec::encode_packet` (codec.rs lines 195-262) -/

/-- `encode_packet_id_and_data`: varint packet id followed by the generated
body serialization. -/
def encode_packet_id_and_data (E : Ext) (protocolVersion : Int) (p : KPacket) :
    List Nat :=
  writeVarInt (E.packetId p protocolVersion) ++ E.writeData p

/-- The compression branch of `encode_packet` (codec.rs lines 208-220): if
the configured threshold is non-negative and `id_and_data` is at least that
long, write the uncompressed length as a varint followed by the deflated
bytes; otherwise write a zero varint followed by the raw bytes. -/
def compressPayload (E : Ext) (threshold : Int) (idAndData : List Nat) : List Nat :=
  if 0 ≤ threshold ∧ threshold.toNat ≤ idAndData.length then
    writeVarInt (usizeAsI32 idAndData.length) ++ E.deflate idAndData
  else
    writeVarInt 0 ++ idAndData

/-- The `payload` binding of `encode_packet` (codec.rs lines 208-223): the
serialized id+body, wrapped by the compression framing when a threshold is
configured. -/
def encodePayload (E : Ext) (protocolVersion : Int)
    (compressionThreshold : Option Int) (packet : KPacket) : List Nat :=
  let idAndData := encode_packet_id_and_data E protocolVersion packet
  match compressionThreshold with
  | some threshold => compressPayload E threshold idAndData
  | none => idAndData

/-- `MinecraftCodec::encode_packet`: an `Unknown` packet is rejected
outright; a `Known` packet is serialized, optionally wrapped by the
compression framing, prefixed with its varint length and written into the
fixed buffer.  Returns the result together with the (possibly partially
written) output buffer. -/
def encode_packet (E : Ext) (protocolVersion : Int) (p : Packet)
    (buf : List Nat) (compressionThreshold : Option Int) :
    Except CodecErr Nat × List Nat :=
  match p with
  | .unknown _ => (.error (.err "Attempted to encode unknown packet"), buf)
  | .known packet =>
    let payload := encodePayload E protocolVersion compressionThreshold packet
    match writeAllC buf 0 (writeVarInt (usizeAsI32 payload.length)) with
    | .error (kind, bufPartial) => (.error (.ioError kind), bufPartial)
    | .ok (bufWithLen, lengthLength) =>
      let totalPacketBytes := lengthLength + payload.length
      if bufWithLen.length < totalPacketBytes then
        (.error (.ioError .unexpectedEof), bufWithLen)
      else
        match writeAllC bufWithLen lengthLength payload with
        | .error (kind, bufPartial) => (.error (.ioError kind), bufPartial)
        | .ok (bufOut, _) => (.ok totalPacketBytes, bufOut)

/-! ## `IntoDecodeResult` / `IntoEncodeResult` (codec.rs lines 286-313) -/

/-- `into_decode_result`: an `UnexpectedEof` io error becomes the
"need more data" signal with zero bytes consumed; any other error is fatal;
success carries the consumed length. -/
def intoDecodeResult {α : Type} (r : Except CodecErr (Nat × α)) :
    Nat × DecodeResult α CodecErr :=
  match r with
  | .ok (length, item) => (length, .ok item)
  | .error (.ioError .unexpectedEof) => (0, .unexpectedEnd)
  | .error e => (0, .err e)

/-- `into_encode_result`: an `UnexpectedEof` io error becomes
`Overflow(buflen * 2)`, requesting a buffer twice the supplied length; any
other error is fatal. -/
def intoEncodeResult (r : Except CodecErr Nat) (buflen : Nat) :
    EncodeResult CodecErr :=
  match r with
  | .ok length => .ok length
  | .error (.ioError .unexpectedEof) => .overflow (buflen * 2)
  | .error e => .err e

/-! ## The codec context and the connection state machine -/

/-- Modelled from the spec: the mutable state held by
`crate::codec::MinecraftClientCodec` is not under `src/`; the spec's Codec
Context is "protocol version (integer), current Connection State,
compression threshold (optional integer; `None` = compression disabled)",
read and written in `src/` through `protocol_version()`,
`protocol_state()`, `compression_threshold()` and the matching setters. -/
structure CodecContext where
  protocolVersion : Int
  protocolState : MinecraftProtocolState
  compressionThreshold : Option Int
deriving DecidableEq

/-- Modelled from the spec: `crate::codec::HANDSHAKE_STATUS_NEXT` is not
under `src/`; the spec says the Handshake packet's next-state field
"selects Status(1) vs Login(2)". -/
def HANDSHAKE_STATUS_NEXT : Int := 1

/-- Modelled from the spec: `crate::codec::HANDSHAKE_LOGIN_NEXT` is not
under `src/`; the spec says the Handshake packet's next-state field
"selects Status(1) vs Login(2)". -/
def HANDSHAKE_LOGIN_NEXT : Int := 2

/-- `MinecraftClientCodec::react_to_packet` (codec.rs lines 324-382) as a
pure function from the old context and the packet to the new context.
Handshake resets the compression threshold and advances the state according
to `next` (an invalid value only logs); StatusResponse adopts the server's
protocol version unless the JSON parse fails (logged);
SetCompression/SetInitialCompression update the threshold; LoginSuccess
advances to Play; every other packet leaves the context unchanged. -/
def react_to_packet (E : Ext) (ctx : CodecContext) (p : Packet) : CodecContext :=
  match p with
  | .known (.handshake next) =>
    let ctx := { ctx with compressionThreshold := none }
    match
      (if next = HANDSHAKE_STATUS_NEXT then some MinecraftProtocolState.status
       else if next = HANDSHAKE_LOGIN_NEXT then some MinecraftProtocolState.login
       else none) with
    | some nextState => { ctx with protocolState := nextState }
    | none => ctx
  | .known (.statusResponse status) =>
    match E.statusProtocolVersion status with
    | .ok v => { ctx with protocolVersion := v }
    | .error _ => ctx
  | .known (.setCompression threshold) =>
    { ctx with compressionThreshold := some threshold }
  | .known (.setInitialCompression threshold) =>
    { ctx with compressionThreshold := some threshold }
  | .known .loginSuccessString => { ctx with protocolState := .play }
  | .known .loginSuccessUUID => { ctx with protocolState := .play }
  | _ => ctx

/-- `<MinecraftClientCodec<MinecraftCodec> as Decode>::decode` (codec.rs
lines 384-403): run `decode_packet` with the context's state, feed a
successful result to `react_to_packet`, then convert through
`into_decode_result`.  Returns the updated context with the result the
caller observes. -/
def codecDecode (E : Ext) (ctx : CodecContext) (buf : List Nat) :
    CodecContext × (Nat × DecodeResult Packet CodecErr) :=
  let result := decode_packet E ctx.protocolVersion ctx.protocolState
    Direction.clientbound ctx.compressionThreshold buf
  let ctx :=
    match result with
    | .ok (_, packet) => react_to_packet E ctx packet
    | .error _ => ctx
  (ctx, intoDecodeResult result)

/-- `<MinecraftClientCodec<MinecraftCodec> as Encode>::encode` (codec.rs
lines 405-422): `react_to_packet` runs first (unconditionally), then
`encode_packet` with the already-updated context, then
`into_encode_result` with the supplied buffer's length.  Returns the
updated context, the result, and the output buffer. -/
def codecEncode (E : Ext) (ctx : CodecContext) (p : Packet) (buf : List Nat) :
    CodecContext × EncodeResult CodecErr × List Nat :=
  let ctx := react_to_packet E ctx p
  let len := buf.length
  let (r, bufOut) := encode_packet E ctx.protocolVersion p buf ctx.compressionThreshold
  (ctx, intoEncodeResult r len, bufOut)

/-! ## The chunk section bitmask decoder (chunks.rs lines 112-163)

`compute_section_bitmask` walks the chunk byte buffer with cursor reads
from `byteorder` and `brine_chunk::decode::VarIntRead`.  The `brine_chunk`
crate is part of this repository but not under `src/`; its readers,
`SECTIONS_PER_CHUNK` and `SectionPalette::MAX_BITS_PER_BLOCK` are modelled
from the spec below. -/

/-- Error type standing for `brine_chunk::decode::Error`: per the spec the
decoder "raises only when a fixed-size primitive read runs past the end of
the buffer", which is `eof` here. -/
inductive ChunkDecodeErr where
  | eof
  | otherErr (msg : String)
deriving DecidableEq

/-- `read_exact`-style reads (`read_i16::<BigEndian>`, `read_u64` loops):
consume exactly `n` bytes or fail with `eof`.  The values are discarded by
`compute_section_bitmask`, so only the consumed suffix is returned. -/
def readN (n : Nat) (bytes : List Nat) : Except ChunkDecodeErr (List Nat) :=
  if n ≤ bytes.length then .ok (bytes.drop n) else .error .eof

/-- `read_u8`: one byte or `eof`. -/
def readU8c : List Nat → Except ChunkDecodeErr (Nat × List Nat)
  | [] => .error .eof
  | b :: rest => .ok (b, rest)

/-- Modelled from the spec: the loop of `brine_chunk::decode::VarIntRead::
read_var_i32` is not under `src/`; per the spec glossary a varint is
"variable-length integer encoding where each byte contributes 7 data bits
plus a continuation bit", and per the spec the chunk decoder errors only on
reads past the end of the buffer. -/
def readVarI32Aux : List Nat → Nat → Nat → Except ChunkDecodeErr (Nat × List Nat)
  | [], _, _ => .error .eof
  | b :: rest, size, val =>
    let val := val ||| ((b &&& 0x7F) <<< (size * 7))
    if b &&& 0x80 = 0 then .ok (val, rest)
    else readVarI32Aux rest (size + 1) val

/-- `cursor.read_var_i32()`: the `i32` value and the remaining bytes. -/
def readVarI32 (bytes : List Nat) : Except ChunkDecodeErr (Int × List Nat) :=
  match readVarI32Aux bytes 0 0 with
  | .error e => .error e
  | .ok (val, rest) => .ok (i32ofU32 (val % 2 ^ 32), rest)

/-- `for _ in 0..palette_len { cursor.read_var_i32()?; }`: skip `n` varints
(the entries are discarded — only presence matters at this layer). -/
def skipVarInts : Nat → List Nat → Except ChunkDecodeErr (List Nat)
  | 0, bytes => .ok bytes
  | n + 1, bytes =>
    match readVarI32 bytes with
    | .error e => .error e
    | .ok (_, rest) => skipVarInts n rest

/-- Modelled from the spec: `brine_chunk::palette::SectionPalette::
MAX_BITS_PER_BLOCK` is not under `src/`; it is the spec's "direct-palette
threshold" below which a palette is present, 8 being the conventional
indirect-palette maximum (every claim below is insensitive to the exact
value, which only selects which sections carry a palette). -/
def MAX_BITS_PER_BLOCK : Nat := 8

/-- Modelled from the spec: `brine_chunk::SECTIONS_PER_CHUNK` is not under
`src/`; the spec's decoder recovers "which of up to 32 vertical sections
are present" with "a hard cap of 32 bits and a hard cap on total section
count". -/
def SECTIONS_PER_CHUNK : Nat := 32

/-- The palette step of the loop body (chunks.rs lines 127-132): when
bits-per-block is within the direct-palette threshold, read a varint
palette length followed by that many varint entries (all discarded). -/
def parsePalette (bitsPerBlock : Nat) (bytes : List Nat) :
    Except ChunkDecodeErr (List Nat) :=
  if bitsPerBlock ≤ MAX_BITS_PER_BLOCK then
    match readVarI32 bytes with
    | .error e => .error e
    | .ok (paletteLen, rest) => skipVarInts paletteLen.toNat rest
  else .ok bytes

/-- One iteration of the `compute_section_bitmask` loop body
(chunks.rs lines 120-137): a 2-byte reserved field, a 1-byte bits-per-block
clamped to a minimum of 4, the palette step, then a varint data-array
length followed by that many 8-byte words.  Returns the unconsumed
suffix. -/
def parseSection (bytes : List Nat) : Except ChunkDecodeErr (List Nat) :=
  match readN 2 bytes with
  | .error e => .error e
  | .ok afterReserved =>
    match readU8c afterReserved with
    | .error e => .error e
    | .ok (bitsPerBlockRaw, afterBpb) =>
      let bitsPerBlock := if bitsPerBlockRaw < 4 then 4 else bitsPerBlockRaw
      match parsePalette bitsPerBlock afterBpb with
      | .error e => .error e
      | .ok afterPal =>
        match readVarI32 afterPal with
        | .error e => .error e
        | .ok (arrayLength, rest) => readN (8 * arrayLength.toNat) rest

/-- `readN` consumes exactly `n` bytes. -/
theorem readN_length {n : Nat} {bytes rest : List Nat}
    (h : readN n bytes = .ok rest) : rest.length + n = bytes.length := by
  unfold readN at h
  split at h
  · cases h
    simp only [List.length_drop]
    omega
  · cases h

/-- `readU8c` consumes exactly one byte. -/
theorem readU8c_length {bytes rest : List Nat} {b : Nat}
    (h : readU8c bytes = .ok (b, rest)) : rest.length + 1 = bytes.length := by
  cases bytes with
  | nil => cases h
  | cons x xs => cases h; simp

/-- `readVarI32Aux` consumes at least one byte. -/
theorem readVarI32Aux_length {bytes rest : List Nat} {size val v : Nat}
    (h : readVarI32Aux bytes size val = .ok (v, rest)) :
    rest.length < bytes.length := by
  induction bytes generalizing size val with
  | nil => cases h
  | cons b bs ih =>
    unfold readVarI32Aux at h
    split at h
    · cases h
      simp
    · have := ih h
      simp only [List.length_cons]
      omega

/-- `readVarI32` consumes at least one byte. -/
theorem readVarI32_length {bytes rest : List Nat} {v : Int}
    (h : readVarI32 bytes = .ok (v, rest)) : rest.length < bytes.length := by
  unfold readVarI32 at h
  split at h
  · cases h
  · next heq => cases h; exact readVarI32Aux_length heq

/-- `skipVarInts` never grows the buffer. -/
theorem skipVarInts_length {n : Nat} {bytes rest : List Nat}
    (h : skipVarInts n bytes = .ok rest) : rest.length ≤ bytes.length := by
  induction n generalizing bytes with
  | zero => cases h; exact Nat.le_refl _
  | succ n ih =>
    unfold skipVarInts at h
    split at h
    · cases h
    · next heq =>
      have h1 := readVarI32_length heq
      have h2 := ih h
      omega

/-- `parsePalette` never grows the buffer. -/
theorem parsePalette_length {bitsPerBlock : Nat} {bytes rest : List Nat}
    (h : parsePalette bitsPerBlock bytes = .ok rest) :
    rest.length ≤ bytes.length := by
  unfold parsePalette at h
  split at h
  · split at h
    · cases h
    · next hv =>
      have h1 := readVarI32_length hv
      have h2 := skipVarInts_length h
      omega
  · cases h
    exact Nat.le_refl _

/-- Every successfully parsed section consumes at least four bytes (two for
the reserved field, one for bits-per-block, at least one for the data-array
varint).  In particular the source's `consumed == 0` stop condition can
never fire. -/
theorem parseSection_length {bytes rest : List Nat}
    (h : parseSection bytes = .ok rest) : rest.length + 4 ≤ bytes.length := by
  unfold parseSection at h
  split at h
  · cases h
  · next hres =>
    have hN := readN_length hres
    split at h
    · cases h
    · next hu8 =>
      have hU := readU8c_length hu8
      split at h
      all_goals
        simp only [] at h
        split at h
        · cases h
        · next hpal =>
          have hP := parsePalette_length hpal
          split at h
          · cases h
          · next harr =>
            have hA := readVarI32_length harr
            have hR := readN_length h
            omega

/-- The `while` loop of `compute_section_bitmask` (chunks.rs lines
117-152): while bytes remain, parse one section; stop without error if the
iteration consumed nothing; set bit `section_index` if below 32; stop after
`SECTIONS_PER_CHUNK` sections.  Returns the bitmask, the final section
index and the unconsumed suffix.  The first argument is fuel for structural
recursion: the loop recurses only when the iteration consumed at least one
byte, so the `chunkBytes.length + 1` fuel supplied by
`compute_section_bitmask` is never exhausted. -/
def sectionLoop : Nat → List Nat → Nat → Nat → Except ChunkDecodeErr (Nat × Nat × List Nat)
  | 0, bytes, bitmask, sectionIndex => .ok (bitmask, sectionIndex, bytes)
  | fuel + 1, bytes, bitmask, sectionIndex =>
    if bytes.length = 0 then .ok (bitmask, sectionIndex, bytes)
    else
      match parseSection bytes with
      | .error e => .error e
      | .ok rest =>
        if rest.length = bytes.length then .ok (bitmask, sectionIndex, rest)
        else
          let bitmask := if sectionIndex < 32 then bitmask ||| (1 <<< sectionIndex) else bitmask
          let sectionIndex := sectionIndex + 1
          if sectionIndex ≥ SECTIONS_PER_CHUNK then .ok (bitmask, sectionIndex, rest)
          else sectionLoop fuel rest bitmask sectionIndex

/-- `compute_section_bitmask` (chunks.rs lines 112-163): run the section
loop from an empty bitmask; trailing unconsumed bytes only log a warning
and the bitmask is returned regardless. -/
def compute_section_bitmask (chunkBytes : List Nat) : Except ChunkDecodeErr Nat :=
  match sectionLoop (chunkBytes.length + 1) chunkBytes 0 0 with
  | .error e => .error e
  | .ok (bitmask, _, _) => .ok bitmask

/-! ## The session handshake orchestrator (login.rs)

The orchestrator's systems are Bevy systems draining per-system message
readers.  Each system is embedded as a pure function over the batch of
messages it would drain in one run: reads become list traversal, writes
accumulate into a result list, `break` stops the traversal. -/

/-- `LoginState` (login.rs lines 49-64). -/
inductive LoginState where
  | idle
  | statusAwaitingConnect
  | statusAwaitingResponse
  | statusAwaitingDisconnect
  | loginAwaitingConnect
  | loginAwaitingSuccess
  | play
deriving DecidableEq

/-- The events `handle_connection_error` inspects:
`brine_net::NetworkEvent` with errors from `brine_net::NetworkError`
(the shapes `NetworkEvent::Error(NetworkError::ConnectFailed(_))`,
`Connected` and `Disconnected` are visible in `src/` login.rs;
`otherEvent` stands for every remaining event/error shape). -/
inductive NetEvent where
  | connected
  | disconnected
  | errorConnectFailed (ioError : String)
  | otherEvent (tag : Nat)
deriving DecidableEq

/-- `brine_proto::event::clientbound::Disconnect { reason }`. -/
structure DisconnectEvent where
  reason : String
deriving DecidableEq

/-- The reason string built by `handle_connection_error`
(login.rs line 144): `format!("Connection failed: {}", io_error)`. -/
def connectionFailedMessage (ioError : String) : String :=
  "Connection failed: " ++ ioError

/-- `handle_connection_error` (login.rs lines 134-151): scan the network
events; on the first `ConnectFailed`, emit one `Disconnect` event carrying
the failure reason, set the next login state to `Idle` and `break`.
Returns the emitted `Disconnect` events and the requested state change. -/
def handle_connection_error : List NetEvent → List DisconnectEvent × Option LoginState
  | [] => ([], none)
  | .errorConnectFailed ioError :: _ =>
    ([⟨connectionFailedMessage ioError⟩], some .idle)
  | _ :: rest => handle_connection_error rest

/-- The phases in which `build` registers `handle_connection_error`
(login.rs lines 161-167 via `protocol_discovery::build` under
`run_if(in_state(LoginState::StatusAwaitingConnect))`, and lines 283-289
via `login::build` under `run_if(in_state(LoginState::LoginAwaitingConnect))`). -/
def connectionErrorRegisteredIn : LoginState → Bool
  | .statusAwaitingConnect => true
  | .loginAwaitingConnect => true
  | _ => false

/-- The `*AwaitingConnect` session phases named by the spec. -/
def isAwaitingConnectPhase : LoginState → Bool
  | .statusAwaitingConnect => true
  | .loginAwaitingConnect => true
  | _ => false

/-- The per-packet match of `respond_to_keep_alive_packets` (login.rs lines
774-796): the keepalive/pong response for a configuration- or play-scoped
keepalive/ping request, carrying the same opaque id; `none` for any other
packet (the loop's `continue`). -/
def keepAliveResponse : Packet → Option Packet
  | .known (.configurationClientboundKeepAlive keepAliveId) =>
    some (.known (.configurationServerboundKeepAlive keepAliveId))
  | .known (.configurationClientboundPing id) =>
    some (.known (.configurationServerboundPong id))
  | .known (.playClientboundKeepAlive keepAliveId) =>
    some (.known (.playServerboundKeepAlive keepAliveId))
  | _ => none

/-- `respond_to_keep_alive_packets` (login.rs lines 769-802): scan the
batch of packets received since the last run; on the first packet with a
keepalive response, send that response and `break`.  Returns the sent
packets. -/
def respond_to_keep_alive_packets : List Packet → List Packet
  | [] => []
  | packet :: rest =>
    match keepAliveResponse packet with
    | some response => [response]
    | none => respond_to_keep_alive_packets rest

/-! ## A concrete instantiation of the external collaborators

Used by the concrete witnesses and counterexamples below: a dispatch table
that recognizes nothing (every id falls back to `Packet::Unknown`), an
identity deflater, an inflater that always fails, a packet id table that
returns 0 and an empty body serializer.  The theorems quantified over
`Ext` hold for every instantiation; this one only makes the closed
statements computable. -/
def extStub : Ext where
  inflate := fun _ => .error .otherKind
  deflate := fun bytes => bytes
  packetById := fun _ _ _ _ _ => .ok none
  packetId := fun _ _ => 0
  writeData := fun _ => []
  statusProtocolVersion := fun _ => .error "stub"

end Brine

deriving instance DecidableEq for Except

namespace Brine

/-! # Theorems -/

/-- C9: for every `Unknown` packet (the fallback variant carrying a numeric
id and raw bytes), `encode_packet` always returns an error and writes
nothing to the output buffer — only `Known` packets can be encoded.  (The
source formats the offending packet into the message with `{:?}`; the
embedding keeps the constant part of the message.) -/
theorem encode_unknown_always_errors (E : Ext) (protocolVersion : Int)
    (u : UnknownPacket) (buf : List Nat) (compressionThreshold : Option Int) :
    encode_packet E protocolVersion (.unknown u) buf compressionThreshold =
      (.error (.err "Attempted to encode unknown packet"), buf) :=
  rfl

/-- C1: for every input buffer holding fewer total bytes than a complete
frame — either the buffer ends inside the varint length prefix itself, or
the prefix declares `v` payload bytes and the buffer holds fewer than
`prefix length + v` bytes — `decode` returns the "need more data" result
with zero bytes consumed and never an error. -/
theorem decode_incomplete_frame_needs_more_data (E : Ext)
    (protocolVersion : Int) (protocolState : MinecraftProtocolState)
    (direction : Direction) (compressionThreshold : Option Int)
    (buf : List Nat)
    (h : readVarInt buf = .error (.ioError .unexpectedEof)
      ∨ ∃ v k rest, readVarInt buf = .ok (v, k, rest)
          ∧ buf.length < k + i32AsUsize v) :
    intoDecodeResult
      (decode_packet E protocolVersion protocolState direction
        compressionThreshold buf) = (0, .unexpectedEnd) := by
  unfold decode_packet
  rcases h with h | ⟨v, k, rest, hok, hlt⟩
  · rw [h]
    rfl
  · rw [hok]
    simp only []
    rw [if_pos hlt]
    rfl

/-- C1 witness: the buffer `[5, 0]` declares a 5-byte payload after a
1-byte prefix but holds only one more byte. -/
theorem decode_incomplete_frame_needs_more_data_witness :
    intoDecodeResult
      (decode_packet extStub 498 .play .clientbound none [5, 0]) =
      (0, .unexpectedEnd) :=
  decode_incomplete_frame_needs_more_data extStub 498 .play .clientbound none
    [5, 0] (Or.inr ⟨5, 1, [0], by decide, by decide⟩)

/-- C2: processing a Handshake packet through the codec resets the
compression threshold to disabled and sets the connection state from the
packet's next-state field: 1 yields Status and 2 yields Login regardless of
the prior state; any other value leaves the prior state unchanged (and is
only logged).  The protocol version is untouched. -/
theorem react_handshake_resets_compression_and_sets_state (E : Ext)
    (ctx : CodecContext) (next : Int) :
    react_to_packet E ctx (.known (.handshake next)) =
      { protocolVersion := ctx.protocolVersion,
        protocolState :=
          if next = 1 then .status
          else if next = 2 then .login
          else ctx.protocolState,
        compressionThreshold := none } := by
  unfold react_to_packet HANDSHAKE_STATUS_NEXT HANDSHAKE_LOGIN_NEXT
  by_cases h1 : next = 1 <;> by_cases h2 : next = 2 <;> simp [h1, h2]

/-- C7: `handle_connection_error` is registered exactly in the two
`*AwaitingConnect` session phases, and whenever the drained event batch
contains a `ConnectFailed` event it emits exactly one `Disconnect` event —
carrying the failure reason of the first such event — and requests the
`Idle` phase. -/
theorem connect_failed_single_disconnect_to_idle :
    (∀ phase, isAwaitingConnectPhase phase = true →
      connectionErrorRegisteredIn phase = true) ∧
    ∀ (events : List NetEvent) (ioError : String),
      NetEvent.errorConnectFailed ioError ∈ events →
      ∃ e, NetEvent.errorConnectFailed e ∈ events ∧
        handle_connection_error events =
          ([⟨connectionFailedMessage e⟩], some .idle) := by
  constructor
  · intro phase h
    cases phase <;> first | rfl | cases h
  · intro events
    induction events with
    | nil => intro ioError h; cases h
    | cons ev rest ih =>
      intro ioError h
      cases ev with
      | errorConnectFailed e =>
        exact ⟨e, List.mem_cons_self _ _, rfl⟩
      | connected =>
        rcases List.mem_cons.mp h with h | h
        · cases h
        · obtain ⟨e, hmem, heq⟩ := ih _ h
          exact ⟨e, List.mem_cons_of_mem _ hmem, heq⟩
      | disconnected =>
        rcases List.mem_cons.mp h with h | h
        · cases h
        · obtain ⟨e, hmem, heq⟩ := ih _ h
          exact ⟨e, List.mem_cons_of_mem _ hmem, heq⟩
      | otherEvent tag =>
        rcases List.mem_cons.mp h with h | h
        · cases h
        · obtain ⟨e, hmem, heq⟩ := ih _ h
          exact ⟨e, List.mem_cons_of_mem _ hmem, heq⟩

/-- C7 witness: a batch holding a `Connected` event followed by one
`ConnectFailed` yields exactly the one `Disconnect` with the formatted
reason, and the `Idle` phase. -/
theorem connect_failed_single_disconnect_to_idle_witness :
    ∃ e, NetEvent.errorConnectFailed e ∈
        [NetEvent.connected, NetEvent.errorConnectFailed "refused"] ∧
      handle_connection_error
          [NetEvent.connected, NetEvent.errorConnectFailed "refused"] =
        ([⟨connectionFailedMessage e⟩], some .idle) :=
  connect_failed_single_disconnect_to_idle.2
    [NetEvent.connected, NetEvent.errorConnectFailed "refused"] "refused"
    (by simp)

/-- C6 counterexample: the batch holds two play-scoped keepalive requests
(ids 1 and 2); the second is a matching packet of the batch, yet the
handler sends only the response for the first — the response carrying id 2
is never sent, refuting "every matching packet, not just the first". -/
theorem keep_alive_only_first_counterexample :
    keepAliveResponse (.known (.playClientboundKeepAlive 2)) =
      some (.known (.playServerboundKeepAlive 2)) ∧
    (Packet.known (.playClientboundKeepAlive 2)) ∈
      [Packet.known (.playClientboundKeepAlive 1),
       Packet.known (.playClientboundKeepAlive 2)] ∧
    respond_to_keep_alive_packets
      [.known (.playClientboundKeepAlive 1),
       .known (.playClientboundKeepAlive 2)] =
      [.known (.playServerboundKeepAlive 1)] ∧
    (Packet.known (.playServerboundKeepAlive 2)) ∉
      respond_to_keep_alive_packets
        [.known (.playClientboundKeepAlive 1),
         .known (.playClientboundKeepAlive 2)] := by
  refine ⟨rfl, by simp, rfl, by decide⟩

/-- C6 (amended): while in the Play phase the keepalive handler answers
only the first configuration- or play-scoped keepalive/ping packet of the
batch — echoing the same opaque id — and then stops scanning for that run:
a batch with no matching packet sends nothing, and a batch whose first
match is `p` sends exactly the one response for `p`. -/
theorem keep_alive_first_match_only :
    (∀ id : Int,
      keepAliveResponse (.known (.configurationClientboundKeepAlive id)) =
        some (.known (.configurationServerboundKeepAlive id)) ∧
      keepAliveResponse (.known (.configurationClientboundPing id)) =
        some (.known (.configurationServerboundPong id)) ∧
      keepAliveResponse (.known (.playClientboundKeepAlive id)) =
        some (.known (.playServerboundKeepAlive id))) ∧
    (∀ batch : List Packet, (∀ p ∈ batch, keepAliveResponse p = none) →
      respond_to_keep_alive_packets batch = []) ∧
    ∀ (pre : List Packet) (p r : Packet) (rest : List Packet),
      (∀ q ∈ pre, keepAliveResponse q = none) →
      keepAliveResponse p = some r →
      respond_to_keep_alive_packets (pre ++ p :: rest) = [r] := by
  refine ⟨fun id => ⟨rfl, rfl, rfl⟩, ?_, ?_⟩
  · intro batch hnone
    induction batch with
    | nil => rfl
    | cons q rest ih =>
      have hq := hnone q (List.mem_cons_self _ _)
      simp only [respond_to_keep_alive_packets]
      rw [hq]
      exact ih fun x hx => hnone x (List.mem_cons_of_mem _ hx)
  · intro pre p r rest hnone hp
    induction pre with
    | nil =>
      rw [List.nil_append]
      simp only [respond_to_keep_alive_packets]
      rw [hp]
    | cons q qs ih =>
      have hq := hnone q (List.mem_cons_self _ _)
      rw [List.cons_append]
      simp only [respond_to_keep_alive_packets]
      rw [hq]
      exact ih fun x hx => hnone x (List.mem_cons_of_mem _ hx)

/-- C6 witness: a non-matching packet followed by a configuration ping with
id 7 draws exactly the pong with id 7. -/
theorem keep_alive_first_match_only_witness :
    respond_to_keep_alive_packets
      ([Packet.known (.otherPacket 3)] ++
        Packet.known (.configurationClientboundPing 7) ::
          [Packet.known (.playClientboundKeepAlive 9)]) =
      [Packet.known (.configurationServerboundPong 7)] :=
  keep_alive_first_match_only.2.2 [Packet.known (.otherPacket 3)]
    (Packet.known (.configurationClientboundPing 7))
    (Packet.known (.configurationServerboundPong 7))
    [Packet.known (.playClientboundKeepAlive 9)]
    (by intro q hq; simp at hq; rw [hq]; rfl) rfl

/-- `spliceAt` keeps the buffer length fixed (the Rust write goes through a
`&mut [u8]`, which cannot grow). -/
theorem spliceAt_length (buf data : List Nat) (pos : Nat)
    (h : pos ≤ buf.length) : (spliceAt buf pos data).length = buf.length := by
  unfold spliceAt
  simp only [List.length_append, List.length_take, List.length_drop]
  omega

/-- A failed `decode_packet` never surfaces as a successful
`DecodeResult`. -/
theorem intoDecodeResult_error_snd {α : Type} (e : CodecErr) (p : α) :
    (intoDecodeResult (Except.error (α := Nat × α) e)).2 ≠ .ok p := by
  intro h
  rcases e with kind | msg
  · rcases kind <;> simp [intoDecodeResult] at h
  · simp [intoDecodeResult] at h

/-- C8 counterexample: encoding a Handshake packet into a zero-length
buffer fails fatally (the length varint cannot even be written), yet the
codec context has already been mutated by the reaction — the compression
threshold was reset and the state advanced to Status — refuting "a decode
or encode that fails leaves the codec context unchanged". -/
theorem encode_failure_mutates_context_counterexample :
    codecEncode extStub ⟨498, .play, some 0⟩ (.known (.handshake 1)) [] =
      (⟨498, .status, none⟩, .err (.ioError .writeZero), []) ∧
    (⟨498, .status, none⟩ : CodecContext) ≠ ⟨498, .play, some 0⟩ := by
  decide

/-- C8 (amended): the state-machine reaction is applied exactly for
successful decodes — a failed decode leaves the codec context unchanged —
and for every encode attempt: on encode the reaction runs before the packet
is encoded, so the context is mutated even when encoding then fails.  In
all cases the reaction is applied before the caller observes the result. -/
theorem react_timing :
    (∀ (E : Ext) (ctx : CodecContext) (buf : List Nat) (packet : Packet),
      (codecDecode E ctx buf).2.2 = .ok packet →
      (codecDecode E ctx buf).1 = react_to_packet E ctx packet) ∧
    (∀ (E : Ext) (ctx : CodecContext) (buf : List Nat),
      (∀ packet, (codecDecode E ctx buf).2.2 ≠ .ok packet) →
      (codecDecode E ctx buf).1 = ctx) ∧
    (∀ (E : Ext) (ctx : CodecContext) (p : Packet) (buf : List Nat),
      (codecEncode E ctx p buf).1 = react_to_packet E ctx p) := by
  refine ⟨?_, ?_, ?_⟩
  · intro E ctx buf packet h
    unfold codecDecode at h ⊢
    cases hres : decode_packet E ctx.protocolVersion ctx.protocolState
        Direction.clientbound ctx.compressionThreshold buf with
    | error e =>
      rw [hres] at h
      exact absurd h (intoDecodeResult_error_snd e packet)
    | ok np =>
      obtain ⟨n, p⟩ := np
      rw [hres] at h
      simp only [intoDecodeResult] at h
      rw [show p = packet from by injection h]
  · intro E ctx buf hfail
    unfold codecDecode at hfail ⊢
    cases hres : decode_packet E ctx.protocolVersion ctx.protocolState
        Direction.clientbound ctx.compressionThreshold buf with
    | error e =>
      rfl
    | ok np =>
      obtain ⟨n, p⟩ := np
      rw [hres] at hfail
      exact absurd rfl (hfail p)
  · intro E ctx p buf
    rfl

/-- C8 witness: a successful decode (a 3-byte frame dispatching to an
unknown packet) updates the context exactly by the reaction to the decoded
packet. -/
theorem react_timing_witness :
    (codecDecode extStub ⟨498, .play, none⟩ [2, 0, 1]).1 =
      react_to_packet extStub ⟨498, .play, none⟩ (.unknown ⟨0, [1]⟩) :=
  react_timing.1 extStub ⟨498, .play, none⟩ [2, 0, 1] (.unknown ⟨0, [1]⟩)
    (by decide)

/-- C10 counterexample: a zero-length output buffer cannot hold the frame
of a `Known` packet, yet encode fails with a fatal `Err` (the length varint
write hits `WriteZero`, not `UnexpectedEof`) rather than the recoverable
`Overflow` the claim promises for every too-small buffer. -/
theorem encode_small_buffer_fatal_counterexample :
    codecEncode extStub ⟨498, .play, none⟩ (.known (.otherPacket 0)) [] =
      (⟨498, .play, none⟩, .err (.ioError .writeZero), []) ∧
    ¬ ∃ n, EncodeResult.err (ε := CodecErr) (.ioError .writeZero) = .overflow n := by
  exact ⟨by decide, fun ⟨n, h⟩ => nomatch h⟩

/-- C10 (amended): when the supplied buffer holds the varint length bytes
but not the complete frame — so the explicit size check inside
`encode_packet` fails with `UnexpectedEof` — the codec returns the
recoverable result requesting a buffer of exactly twice the supplied
length.  (A buffer too small for even the length varint instead fails
fatally with `WriteZero`, as the counterexample shows.) -/
theorem encode_overflow_requests_double (E : Ext) (ctx : CodecContext)
    (kp : KPacket) (buf : List Nat)
    (hfit : (writeVarInt (usizeAsI32 (encodePayload E
        (react_to_packet E ctx (.known kp)).protocolVersion
        (react_to_packet E ctx (.known kp)).compressionThreshold kp).length)).length
      ≤ buf.length)
    (hshort : buf.length <
      (writeVarInt (usizeAsI32 (encodePayload E
        (react_to_packet E ctx (.known kp)).protocolVersion
        (react_to_packet E ctx (.known kp)).compressionThreshold kp).length)).length
      + (encodePayload E
        (react_to_packet E ctx (.known kp)).protocolVersion
        (react_to_packet E ctx (.known kp)).compressionThreshold kp).length) :
    (codecEncode E ctx (.known kp) buf).2.1 = .overflow (buf.length * 2) := by
  unfold codecEncode encode_packet
  simp only []
  generalize hgen : encodePayload E
      (react_to_packet E ctx (Packet.known kp)).protocolVersion
      (react_to_packet E ctx (Packet.known kp)).compressionThreshold kp = P
      at hfit hshort ⊢
  unfold writeAllC
  rw [if_pos (by omega :
    0 + (writeVarInt (usizeAsI32 P.length)).length ≤ buf.length)]
  simp only []
  rw [if_pos]
  · rfl
  · rw [spliceAt_length _ _ _ (by omega)]
    omega

/-- C10 witness: a one-byte buffer fits the length varint of a two-byte
frame but not the frame, so encode requests a buffer of size 2. -/
theorem encode_overflow_requests_double_witness :
    (codecEncode extStub ⟨498, .play, none⟩ (.known (.otherPacket 0)) [7]).2.1 =
      .overflow (2 : Nat) :=
  encode_overflow_requests_double extStub ⟨498, .play, none⟩ (.otherPacket 0)
    [7] (by decide) (by decide)

/-- Casting a `u32` bit pattern through `i32` and back is the identity. -/
theorem u32ofI32_i32ofU32 (v : Nat) (h : v < 2 ^ 32) :
    u32ofI32 (i32ofU32 v) = v := by
  unfold u32ofI32 i32ofU32
  split
  · omega
  · omega

/-- C3 counterexample: with the configured threshold `t = -1` and the
1-byte payload `[0]` (so `s = 1 ≥ t`), `compressPayload` writes the
zero-length "uncompressed length" varint followed by the raw bytes, not the
compressed framing — refuting "compresses iff `s ≥ t`": the source only
compresses when `threshold >= 0 && id_and_data.len() >= threshold`. -/
theorem compress_negative_threshold_counterexample :
    compressPayload extStub (-1) [0] = writeVarInt 0 ++ [0] ∧
    ((-1 : Int) ≤ 1) ∧
    compressPayload extStub (-1) [0] ≠
      writeVarInt (usizeAsI32 ([0] : List Nat).length) ++ extStub.deflate [0] := by
  decide

/-- C3 (amended): with a compression threshold `t` configured, encode
deflate-compresses the id+body payload — writing its length as a nonzero
varint "uncompressed length" — exactly when `t` is non-negative and the
payload size is at least `t`; otherwise it writes the zero-length prefix
followed by the raw bytes.  And a decode under compression whose payload
declares an "uncompressed length" of zero hands the trailing bytes to the
packet dispatch verbatim, without any inflation (the result mentions no
inflater). -/
theorem compression_iff_nonneg_threshold_and_size :
    (∀ (E : Ext) (t : Int) (d : List Nat), 0 ≤ t → t.toNat ≤ d.length →
      compressPayload E t d = writeVarInt (usizeAsI32 d.length) ++ E.deflate d) ∧
    (∀ (E : Ext) (t : Int) (d : List Nat), ¬(0 ≤ t ∧ t.toNat ≤ d.length) →
      compressPayload E t d = writeVarInt 0 ++ d) ∧
    (∀ d : List Nat, 0 < d.length → d.length < 2 ^ 32 →
      (writeVarInt (usizeAsI32 d.length)).head? ≠ some 0) ∧
    writeVarInt 0 = [0] ∧
    (∀ (E : Ext) (pv : Int) (ps : MinecraftProtocolState) (dir : Direction)
      (t : Int) (buf restBuf remaining : List Nat) (lengthV : Int)
      (lengthLength zlen : Nat),
      readVarInt buf = .ok (lengthV, lengthLength, restBuf) →
      ¬ buf.length < lengthLength + i32AsUsize lengthV →
      readVarInt ((buf.drop lengthLength).take (i32AsUsize lengthV)) =
        .ok (0, zlen, remaining) →
      decode_packet E pv ps dir (some t) buf =
        (decodeIdAndDispatch E pv ps dir remaining).map
          (fun p => (lengthLength + i32AsUsize lengthV, p))) := by
  refine ⟨?_, ?_, ?_, rfl, ?_⟩
  · intro E t d h0 hle
    unfold compressPayload
    rw [if_pos ⟨h0, hle⟩]
  · intro E t d hnot
    unfold compressPayload
    rw [if_neg hnot]
  · intro d hpos hlt h
    unfold writeVarInt at h
    rw [show usizeAsI32 d.length = i32ofU32 d.length from by
      unfold usizeAsI32; rw [Nat.mod_eq_of_lt hlt]] at h
    rw [u32ofI32_i32ofU32 _ hlt] at h
    unfold varIntBytesAux at h
    split at h
    · simp only [List.head?, Option.some.injEq] at h
      omega
    · simp only [List.head?, Option.some.injEq] at h
      have h7 : (d.length &&& 0x7F ||| 0x80).testBit 7 = true := by
        rw [Nat.testBit_lor]
        have h128 : (0x80 : Nat).testBit 7 = true := by decide
        rw [h128, Bool.or_true]
      rw [h] at h7
      exact absurd h7 (by decide)
  · intro E pv ps dir t buf restBuf remaining lengthV lengthLength zlen
      hlen hge hzero
    unfold decode_packet
    rw [hlen]
    simp only []
    rw [if_neg hge]
    unfold decompressBody
    rw [hzero]
    simp only []
    rw [if_pos (by rfl : i32AsUsize 0 = 0)]
    simp only []
    cases decodeIdAndDispatch E pv ps dir remaining with
    | error e => rfl
    | ok packet => rfl

/-- C3 witness: with threshold 1 the 2-byte payload `[9, 9]` is compressed
(prefix varint 2, deflated body); and the 4-byte frame `[3, 0, 0, 9]`
under compression (zero "uncompressed length" after the frame prefix)
dispatches the trailing bytes `[0, 9]` verbatim. -/
theorem compression_iff_witness :
    compressPayload extStub 1 [9, 9] =
      writeVarInt (usizeAsI32 ([9, 9] : List Nat).length) ++ extStub.deflate [9, 9] ∧
    decode_packet extStub 498 .play .clientbound (some 5) [3, 0, 0, 9] =
      (decodeIdAndDispatch extStub 498 .play .clientbound [0, 9]).map
        (fun p => (1 + i32AsUsize 3, p)) :=
  ⟨compression_iff_nonneg_threshold_and_size.1 extStub 1 [9, 9] (by decide)
      (by decide),
   compression_iff_nonneg_threshold_and_size.2.2.2.2 extStub 498 .play
      .clientbound 5 [3, 0, 0, 9] [0, 0, 9] [0, 9] 3 1 1 (by decide)
      (by decide) (by decide)⟩

/-- Setting bit `idx` and then the `k` bits above it equals setting the low
`k + 1` bits shifted up to `idx`. -/
theorem lor_shiftLeft_low_bits (idx k : Nat) :
    (1 <<< idx) ||| ((2 ^ k - 1) <<< (idx + 1)) = (2 ^ (k + 1) - 1) <<< idx := by
  apply Nat.eq_of_testBit_eq
  intro i
  rw [Nat.testBit_lor, Nat.one_shiftLeft, Nat.testBit_two_pow,
    Nat.testBit_shiftLeft, Nat.testBit_shiftLeft,
    Nat.testBit_two_pow_sub_one, Nat.testBit_two_pow_sub_one]
  rw [← Bool.decide_and, ← Bool.decide_and, ← Bool.decide_or, decide_eq_decide]
  omega

/-- A structurally valid section encoding: the loop body parses it and
consumes exactly its bytes, whatever follows it in the buffer. -/
def IsValidSection (s : List Nat) : Prop :=
  ∀ tail : List Nat, parseSection (s ++ tail) = .ok tail

/-- A valid section is nonempty: `parseSection` fails on an empty buffer at
the 2-byte reserved field. -/
theorem IsValidSection.ne_nil {s : List Nat} (h : IsValidSection s) :
    s ≠ [] := by
  intro hnil
  subst hnil
  have h0 := h []
  have hne : parseSection ([] ++ []) ≠ .ok [] := by decide
  exact hne h0

/-- Running the section loop over valid sections followed by `extra` bytes
sets the next `secs.length` bits from `idx` upward: the loop consumes every
section and stops either at the end of the buffer (`extra = []`) or at the
section cap with `extra` left unconsumed. -/
theorem sectionLoop_valid (secs : List (List Nat)) :
    ∀ (fuel idx bitmask : Nat) (extra : List Nat),
      (∀ s ∈ secs, IsValidSection s) →
      (secs.flatten ++ extra).length < fuel →
      idx + secs.length ≤ 32 →
      (extra = [] ∨ (secs ≠ [] ∧ idx + secs.length = 32)) →
      sectionLoop fuel (secs.flatten ++ extra) bitmask idx =
        .ok (bitmask ||| ((2 ^ secs.length - 1) <<< idx), idx + secs.length, extra) := by
  induction secs with
  | nil =>
    intro fuel idx bitmask extra hvalid hfuel hle hstop
    rcases hstop with rfl | ⟨hne, _⟩
    · cases fuel with
      | zero => simp at hfuel
      | succ f =>
        simp only [List.flatten_nil, List.nil_append]
        unfold sectionLoop
        simp [Nat.or_zero]
    · exact absurd rfl hne
  | cons s rest ih =>
    intro fuel idx bitmask extra hvalid hfuel hle hstop
    have hs : IsValidSection s := hvalid s (List.mem_cons_self _ _)
    have hsne : s ≠ [] := hs.ne_nil
    have hslen : 0 < s.length := List.length_pos.mpr hsne
    have hlen : (s :: rest).length = rest.length + 1 := rfl
    cases fuel with
    | zero => simp at hfuel
    | succ f =>
      have hbytes : (s :: rest).flatten ++ extra = s ++ (rest.flatten ++ extra) := by
        simp [List.flatten_cons, List.append_assoc]
      rw [hbytes] at hfuel ⊢
      unfold sectionLoop
      rw [if_neg (by rw [List.length_append]; omega)]
      rw [hs (rest.flatten ++ extra)]
      simp only []
      rw [if_neg (by
        rw [show (s ++ (rest.flatten ++ extra)).length
            = s.length + (rest.flatten ++ extra).length from List.length_append _ _]
        omega)]
      rw [if_pos (show idx < 32 by rw [hlen] at hle; omega)]
      by_cases hcap : idx + 1 ≥ SECTIONS_PER_CHUNK
      · rw [if_pos hcap]
        unfold SECTIONS_PER_CHUNK at hcap
        have hidx : idx = 31 := by rw [hlen] at hle; omega
        have hrest : rest = [] := by
          rw [hlen] at hle
          have hr0 : rest.length = 0 := by omega
          exact List.eq_nil_of_length_eq_zero hr0
        subst hrest
        subst hidx
        simp only [List.flatten_nil, List.nil_append, hlen]
        rfl
      · rw [if_neg hcap]
        unfold SECTIONS_PER_CHUNK at hcap
        have hvalid' : ∀ t ∈ rest, IsValidSection t :=
          fun t ht => hvalid t (List.mem_cons_of_mem _ ht)
        have hfuel' : (rest.flatten ++ extra).length < f := by
          rw [show (s ++ (rest.flatten ++ extra)).length
              = s.length + (rest.flatten ++ extra).length from List.length_append _ _]
            at hfuel
          omega
        have hle' : (idx + 1) + rest.length ≤ 32 := by rw [hlen] at hle; omega
        have hstop' : extra = [] ∨ (rest ≠ [] ∧ (idx + 1) + rest.length = 32) := by
          rcases hstop with rfl | ⟨_, hcap32⟩
          · exact Or.inl rfl
          · refine Or.inr ⟨?_, ?_⟩
            · intro hnil
              subst hnil
              simp only [List.length_cons, List.length_nil] at hcap32
              omega
            · rw [hlen] at hcap32
              omega
        rw [ih f (idx + 1) (bitmask ||| 1 <<< idx) extra hvalid' hfuel' hle' hstop']
        rw [Nat.lor_assoc, lor_shiftLeft_low_bits]
        have harith : idx + 1 + rest.length = idx + (s :: rest).length := by
          rw [hlen]; omega
        rw [harith, hlen]

/-- `readN` only fails with `eof`. -/
theorem readN_error_eof {n : Nat} {bytes : List Nat} {e : ChunkDecodeErr}
    (h : readN n bytes = .error e) : e = .eof := by
  unfold readN at h
  split at h
  · cases h
  · cases h; rfl

/-- `readU8c` only fails with `eof`. -/
theorem readU8c_error_eof {bytes : List Nat} {e : ChunkDecodeErr}
    (h : readU8c bytes = .error e) : e = .eof := by
  cases bytes with
  | nil => cases h; rfl
  | cons b rest => cases h

/-- The varint reader loop only fails with `eof`. -/
theorem readVarI32Aux_error_eof {bytes : List Nat} :
    ∀ {size val : Nat} {e : ChunkDecodeErr},
      readVarI32Aux bytes size val = .error e → e = .eof := by
  induction bytes with
  | nil => intro size val e h; cases h; rfl
  | cons b rest ih =>
    intro size val e h
    unfold readVarI32Aux at h
    split at h
    · cases h
    · exact ih h

/-- `readVarI32` only fails with `eof`. -/
theorem readVarI32_error_eof {bytes : List Nat} {e : ChunkDecodeErr}
    (h : readVarI32 bytes = .error e) : e = .eof := by
  unfold readVarI32 at h
  split at h
  · next heq =>
    cases h
    exact readVarI32Aux_error_eof heq
  · cases h

/-- `skipVarInts` only fails with `eof`. -/
theorem skipVarInts_error_eof {n : Nat} :
    ∀ {bytes : List Nat} {e : ChunkDecodeErr},
      skipVarInts n bytes = .error e → e = .eof := by
  induction n with
  | zero => intro bytes e h; cases h
  | succ n ih =>
    intro bytes e h
    unfold skipVarInts at h
    split at h
    · next heq =>
      cases h
      exact readVarI32_error_eof heq
    · exact ih h

/-- `parsePalette` only fails with `eof`. -/
theorem parsePalette_error_eof {bitsPerBlock : Nat} {bytes : List Nat}
    {e : ChunkDecodeErr} (h : parsePalette bitsPerBlock bytes = .error e) :
    e = .eof := by
  unfold parsePalette at h
  split at h
  · split at h
    · next heq =>
      cases h
      exact readVarI32_error_eof heq
    · exact skipVarInts_error_eof h
  · cases h

/-- The section parser only fails with `eof`: every failure is a
fixed-size primitive read running past the end of the buffer. -/
theorem parseSection_error_eof {bytes : List Nat} {e : ChunkDecodeErr}
    (h : parseSection bytes = .error e) : e = .eof := by
  unfold parseSection at h
  split at h
  · next heq =>
    cases h
    exact readN_error_eof heq
  · split at h
    · next heq =>
      cases h
      exact readU8c_error_eof heq
    · split at h
      all_goals
        simp only [] at h
        split at h
        · next heq =>
          cases h
          exact parsePalette_error_eof heq
        · split at h
          · next heq =>
            cases h
            exact readVarI32_error_eof heq
          · exact readN_error_eof h

/-- The section loop only fails with `eof`. -/
theorem sectionLoop_error_eof {fuel : Nat} :
    ∀ {bytes : List Nat} {bitmask sectionIndex : Nat} {e : ChunkDecodeErr},
      sectionLoop fuel bytes bitmask sectionIndex = .error e → e = .eof := by
  induction fuel with
  | zero => intro bytes bitmask sectionIndex e h; cases h
  | succ f ih =>
    intro bytes bitmask sectionIndex e h
    unfold sectionLoop at h
    split at h
    · cases h
    · split at h
      · next heq =>
        cases h
        exact parseSection_error_eof heq
      · split at h
        · cases h
        · simp only [] at h
          split at h
          · cases h
          · exact ih h

/-- `compute_section_bitmask` only fails with `eof`. -/
theorem compute_bitmask_error_eof {bytes : List Nat} {e : ChunkDecodeErr}
    (h : compute_section_bitmask bytes = .error e) : e = .eof := by
  unfold compute_section_bitmask at h
  split at h
  · next heq =>
    cases h
    exact sectionLoop_error_eof heq
  · cases h

/-- The four-byte encoding `[0, 0, 15, 0]` — reserved field, bits-per-block
15 (above the direct-palette threshold, so no palette), empty data array —
is a structurally valid section. -/
theorem probeSection_valid : IsValidSection [0, 0, 15, 0] := by
  intro tail
  simp [parseSection, readN, readU8c, parsePalette, readVarI32, readVarI32Aux,
    skipVarInts, MAX_BITS_PER_BLOCK, i32ofU32]

/-- C4: for every buffer encoding exactly `N` structurally valid chunk
sections with `0 < N ≤ 32`, `compute_section_bitmask` returns `Ok` of the
bitmask with exactly the low `N` bits set (`2 ^ N - 1`): bit-setting is
capped at 32 bits and parsing at the section cap, so each of the `N`
sections receives its bit. -/
theorem compute_section_bitmask_low_bits (secs : List (List Nat))
    (hvalid : ∀ s ∈ secs, IsValidSection s)
    (hpos : 0 < secs.length) (hle : secs.length ≤ 32) :
    compute_section_bitmask secs.flatten = .ok (2 ^ secs.length - 1) := by
  unfold compute_section_bitmask
  have h := sectionLoop_valid secs (secs.flatten.length + 1) 0 0 [] hvalid
    (by simp) (by omega) (Or.inl rfl)
  rw [List.append_nil] at h
  rw [h]
  simp

/-- C4 witness: a buffer of exactly 3 valid sections yields bitmask
`0b111`. -/
theorem compute_section_bitmask_low_bits_witness :
    compute_section_bitmask
      (List.flatten [[0, 0, 15, 0], [0, 0, 15, 0], [0, 0, 15, 0]]) = .ok 7 :=
  compute_section_bitmask_low_bits
    [[0, 0, 15, 0], [0, 0, 15, 0], [0, 0, 15, 0]]
    (by
      intro s hs
      simp only [List.mem_cons, List.not_mem_nil, or_false] at hs
      rcases hs with h | h | h <;> (subst h; exact probeSection_valid))
    (by decide) (by decide)

/-- C5 counterexample: the buffer `[0,0,15,0] ++ [0,0,0]` holds one fully
parsed valid section followed by a truncated second section (its
bits-per-block byte is 0 — clamped to 4, within the palette threshold — and
the palette varint read runs past the end).  The decoder raises the `eof`
error instead of returning the bitmask `0b1` of the sections parsed before
the truncation, refuting "returns (not raises) the bitmask of the sections
fully parsed before the truncation" and "never raises on corrupt data past
a structurally valid prefix". -/
theorem truncated_mid_section_raises_counterexample :
    compute_section_bitmask [0, 0, 15, 0, 0, 0, 0] = .error .eof ∧
    compute_section_bitmask [0, 0, 15, 0] = .ok 1 := by
  decide

/-- C5 (amended): `compute_section_bitmask` raises an error exactly when a
fixed-size primitive read runs past the end of the buffer — `eof` is the
only error it ever raises, including on buffers truncated mid-section past
a structurally valid prefix.  The zero-bytes-consumed stop condition can
never fire, because every successfully parsed section consumes at least
four bytes; so no truncated buffer returns a partial bitmask.  Bytes left
unconsumed when the loop stops at the section cap are a non-fatal anomaly:
the bitmask is still returned. -/
theorem chunk_decode_errors_only_past_end :
    (∀ (bytes : List Nat) (e : ChunkDecodeErr),
      compute_section_bitmask bytes = .error e → e = .eof) ∧
    (∀ bytes rest : List Nat, parseSection bytes = .ok rest →
      rest.length + 4 ≤ bytes.length) ∧
    (∀ (secs : List (List Nat)) (extra : List Nat),
      (∀ s ∈ secs, IsValidSection s) → secs.length = 32 →
      compute_section_bitmask (secs.flatten ++ extra) = .ok (2 ^ 32 - 1)) := by
  refine ⟨fun bytes e h => compute_bitmask_error_eof h,
    fun bytes rest h => parseSection_length h, ?_⟩
  intro secs extra hvalid hlen
  unfold compute_section_bitmask
  have h := sectionLoop_valid secs ((secs.flatten ++ extra).length + 1) 0 0
    extra hvalid (by omega) (by omega)
    (Or.inr ⟨by intro h0; subst h0; simp at hlen, by omega⟩)
  rw [h]
  rw [hlen]
  simp

/-- C5 witness: the error conjunct applied to the 1-byte truncated buffer
`[0]`, and 32 valid sections followed by a stray trailing byte still
yielding the full bitmask. -/
theorem chunk_decode_errors_only_past_end_witness :
    ChunkDecodeErr.eof = ChunkDecodeErr.eof ∧
    compute_section_bitmask
      ((List.replicate 32 [0, 0, 15, 0]).flatten ++ [9]) = .ok (2 ^ 32 - 1) :=
  ⟨chunk_decode_errors_only_past_end.1 [0] .eof (by decide),
   chunk_decode_errors_only_past_end.2.2 (List.replicate 32 [0, 0, 15, 0]) [9]
     (fun s hs => by rw [List.eq_of_mem_replicate hs]; exact probeSection_valid)
     (by simp)⟩

end Brine
